import Mathlib

/-!
Verification development for the screenpipe audio pipeline
(`screenpipe-audio`): a shallow embedding in Lean 4 of the data model and
the operations of the capture → chunking → VAD → STT pipeline, together
with theorems settling the specification's claims about them.

Conventions of the embedding:
* Rust `f32`/`f64` sample values are idealised as exact rationals (`ℚ`);
  no rounding is modelled.  All claims treated here are about buffer
  shapes, control flow and string handling, none about numeric precision.
* Rust strings are embedded as `List Char` (device names, suffix
  parsing) or as Lean `String` where only equality matters.
* Fallible Rust functions returning `anyhow::Result` are embedded as
  `Except String _` (or a dedicated error type where the code
  distinguishes error kinds, e.g. `SttErrorKind::NoSpeech`).
* The external crates (`rubato`'s sinc resampler core, the VAD
  implementations, the HTTP client, the STT engines behind the
  `SttEngine` trait) are out of scope per the specification §1 and are
  abstracted as function parameters; everything else is translated from
  the source.
* The asynchronous actors (STT worker loop in
  `stt/engines/mod.rs::create_comm_channel`, the recorder loop in
  `core.rs::record_and_transcribe`) are embedded as small-step
  transition systems driven by an explicit interleaved event schedule:
  environment events (state-bus publications, channel arrivals, channel
  closures) and worker steps alternate freely, which models the tokio
  interleaving at the actors' await points.
-/

namespace Screenpipe

/-- Kind of a capture endpoint, from `core.rs` `enum DeviceType`. -/
inductive DeviceType where
  | Input
  | Output
deriving DecidableEq, Repr

/-- Logical audio device identifier, from `core.rs` `struct AudioDevice`.
The Rust `String` name is embedded as `List Char`. -/
structure AudioDevice where
  name : List Char
  deviceType : DeviceType
deriving DecidableEq, Repr

/-- Recording phase carried by the state bus, from `stt/mod.rs`
`enum RecordingState`. -/
inductive RecordingState where
  | Initializing
  | Recording
  | RecordingPaused
  | RecordingFinished
  | Stopping
  | Draining
deriving DecidableEq, Repr

/-- One captured chunk, from `stt/mod.rs` `struct AudioInput`.
PCM samples are idealised rationals. -/
structure AudioInput where
  data : List ℚ
  sampleRate : Nat
  channels : Nat
  device : String
deriving DecidableEq, Repr

/-- Outcome of one `AudioInput`, from `stt/mod.rs`
`struct TranscriptionResult`. -/
structure TranscriptionResult where
  path : String
  input : AudioInput
  transcription : Option String
  timestamp : Nat
  error : Option String
deriving DecidableEq, Repr

/-! ## Rust string primitives used by `AudioDevice::from_name` -/

/-- Whitespace test used by Rust's `str::trim`, idealised to Lean's
`Char.isWhitespace` (space, tab, carriage return, newline). -/
def wsChar (c : Char) : Bool := c.isWhitespace

/-- Rust `str::trim_start`: drop leading whitespace. -/
def rustTrimStart (s : List Char) : List Char := s.dropWhile wsChar

/-- Rust `str::trim_end`: drop trailing whitespace. -/
def rustTrimEnd (s : List Char) : List Char := (s.reverse.dropWhile wsChar).reverse

/-- Rust `str::trim`: drop whitespace on both ends. -/
def rustTrim (s : List Char) : List Char := rustTrimEnd (rustTrimStart s)

/-- Rust `str::to_lowercase`, idealised as the character-wise ASCII
lowering `Char.toLower` (the suffixes compared against are ASCII). -/
def lowerList (s : List Char) : List Char := s.map Char.toLower

/-- Fuel-indexed core of `str::trim_end_matches`: repeatedly remove the
suffix `pat` from the end of `s` while it matches. -/
def temGo (pat : List Char) : Nat → List Char → List Char
  | 0, s => s
  | fuel + 1, s =>
    if pat ≠ [] ∧ pat.isSuffixOf s then
      temGo pat fuel (s.take (s.length - pat.length))
    else s

/-- Rust `str::trim_end_matches(pat)`: repeatedly strip the suffix `pat`.
`s.length` is enough fuel since each round shortens the string. -/
def trimEndMatches (pat : List Char) (s : List Char) : List Char :=
  temGo pat s.length s

/-- The literal `"(input)"` suffix from `core.rs::AudioDevice::from_name`. -/
def inputSuffix : List Char := "(input)".toList

/-- The literal `"(output)"` suffix from `core.rs::AudioDevice::from_name`. -/
def outputSuffix : List Char := "(output)".toList

/-- Embedding of `core.rs` `AudioDevice::from_name` (lines 59–82):
reject a name that trims to empty; if its lowercase form ends with
`"(input)"`, strip that suffix from the original, trim, and build an
input device; else likewise for `"(output)"`; else fail. -/
def AudioDevice.fromName (s : List Char) : Option AudioDevice :=
  if (rustTrim s).isEmpty then none
  else if inputSuffix.isSuffixOf (lowerList s) then
    some ⟨rustTrim (trimEndMatches inputSuffix s), DeviceType.Input⟩
  else if outputSuffix.isSuffixOf (lowerList s) then
    some ⟨rustTrim (trimEndMatches outputSuffix s), DeviceType.Output⟩
  else none

/-- Embedding of `core.rs` `impl fmt::Display for AudioDevice`
(lines 84–96): `"<name> (input)"` or `"<name> (output)"`. -/
def AudioDevice.display (d : AudioDevice) : List Char :=
  d.name ++ (' ' :: match d.deviceType with
    | DeviceType.Input => inputSuffix
    | DeviceType.Output => outputSuffix)

/-! ## Chunking, down-mix and resampling (`stt/mod.rs::resample`) -/

/-- Fuel-indexed core of Rust's slice `chunks(n)`. -/
def chunksGo (n : Nat) : Nat → List α → List (List α)
  | 0, _ => []
  | _ + 1, [] => []
  | fuel + 1, l => l.take n :: chunksGo n fuel (l.drop n)

/-- Rust slice `chunks(n)`: split into consecutive chunks of `n`
elements, the last chunk possibly shorter.  Empty for `n = 0` (Rust
panics there; every call site passes a positive size). -/
def chunksList (n : Nat) (l : List α) : List (List α) :=
  if n = 0 then [] else chunksGo n l.length l

/-- Down-mix interleaved multi-channel samples to mono by per-frame
arithmetic mean, from `stt/mod.rs::resample` lines 240–251: when
`input_channels > 1`, each `channels`-sized chunk is averaged
(`frame.sum / channels`); otherwise the input passes through. -/
def downmixMono (channels : Nat) (input : List ℚ) : List ℚ :=
  if 1 < channels then
    (chunksList channels input).map (fun frame => frame.sum / (channels : ℚ))
  else input

/-- A sinc-resampler core abstracting `rubato::SincFixedIn` configured
with one output channel: given the rates, maps one mono wave to one mono
wave.  The rubato crate is external to the repository (opaque per spec
§1). -/
def ResamplerCore : Type := Nat → Nat → List ℚ → List ℚ

/-- The per-channel wave list built by `stt/mod.rs::resample`
lines 253–264: the down-mixed mono wave is handed to the sinc resampler
configured with `1` output channel (`waves_in = vec![mono_input]`). -/
def resampleWaves (core : ResamplerCore) (input : List ℚ)
    (channels fromRate toRate : Nat) : List (List ℚ) :=
  [core fromRate toRate (downmixMono channels input)]

/-- Embedding of `stt/mod.rs::resample` (lines 222–273): down-mix to
mono, resample, and return the single output wave
(`waves_out.into_iter().next()`, failing if absent). -/
def resample (core : ResamplerCore) (input : List ℚ)
    (channels fromRate toRate : Nat) : Except String (List ℚ) :=
  match (resampleWaves core input channels fromRate toRate).head? with
  | some w => Except.ok w
  | none => Except.error "No resampled data produced"

/-! ## WAV packaging (`stt/mod.rs::create_wav`) -/

/-- The cpal sample formats distinguished by `get_wav_format`. -/
inductive SampleFormat where
  | I8
  | I16
  | I32
  | F32
deriving DecidableEq, Repr

/-- Payload of a packaged WAV file: either scaled `i16` samples or
pass-through `f32` samples. -/
inductive WavData where
  | int16 (samples : List ℤ)
  | float32 (samples : List ℚ)
deriving DecidableEq, Repr

/-- A RIFF/WAVE file as produced by `hound::WavWriter`: the header
fields of the `WavSpec` plus the single data chunk. -/
structure WavFile where
  channels : Nat
  sampleRate : Nat
  bitsPerSample : Nat
  data : WavData
deriving DecidableEq, Repr

/-- Truncation toward zero of a rational, modelling Rust's `as i16`
cast applied after clamping. -/
def truncQ (q : ℚ) : ℤ := if 0 ≤ q then ⌊q⌋ else ⌈q⌉

/-- Int16 scaling from `stt/mod.rs::write_samples` lines 204–208:
`(sample * 32767.0).clamp(-32768.0, 32767.0) as i16`. -/
def toI16 (q : ℚ) : ℤ := truncQ (max (-32768) (min 32767 (q * 32767)))

/-- Embedding of `stt/mod.rs::create_wav` (lines 159–177) together with
`get_wav_format` (151–157) and `write_samples` (199–220): Int16 scales
and truncates each sample, Float32 passes samples through, all other
formats are rejected. -/
def createWav (audioData : List ℚ) (sampleRate : Nat) (channels : Nat)
    (fmt : SampleFormat) : Except String WavFile :=
  match fmt with
  | SampleFormat.I16 =>
    Except.ok ⟨channels, sampleRate, 16, WavData.int16 (audioData.map toI16)⟩
  | SampleFormat.F32 =>
    Except.ok ⟨channels, sampleRate, 32, WavData.float32 audioData⟩
  | _ => Except.error "Unsupported sample format"

/-! ## REST engine request packaging (`stt/engines/restpipe.rs`) -/

/-- Embedding of the audio-packaging prefix of
`RestPipeEngine::transcribe` (restpipe.rs lines 100–126): when a target
rate is configured and differs from the incoming rate, the samples are
resampled (to mono) and the result is packaged with `create_wav` —
note the code passes the incoming `sample_rate`, not the target, as the
WAV header rate. -/
def restPipeWav (core : ResamplerCore) (resampleToRate : Option Nat)
    (audioData : List ℚ) (sampleRate : Nat) (channels : Nat) :
    Except String WavFile :=
  match resampleToRate with
  | some target =>
    if target ≠ sampleRate then
      match resample core audioData channels sampleRate target with
      | Except.ok data => createWav data sampleRate 1 SampleFormat.I16
      | Except.error e => Except.error e
    else createWav audioData sampleRate channels SampleFormat.I16
  | none => createWav audioData sampleRate channels SampleFormat.I16

/-! ## VAD gate and STT dispatch (`stt/mod.rs::perform_stt`) -/

/-- An STT engine behind the `SttEngine` trait:
`transcribe(samples, rate, channels, device) → text`, abstracted as a
function (the engines' internals are external collaborators). -/
def SttEngineFn : Type := List ℚ → Nat → Nat → String → Except String String

/-- A VAD engine behind the `VadEngine` trait:
`is_voice_segment(frame) → bool`, fallible per frame. -/
def VadFn : Type := List ℚ → Except String Bool

/-- Error kinds of `perform_stt`: the typed `SttErrorKind::NoSpeech`
versus every other (stringly reported) failure. -/
inductive SttFailure where
  | noSpeech
  | other (msg : String)
deriving DecidableEq, Repr

/-- The speech-only buffer built by `perform_stt` lines 72–85: walk the
10 ms frames (`chunks(160)`), keep frames the VAD marks as voice, treat
per-frame VAD errors as non-voice. -/
def speechBuffer (vad : VadFn) (audioData : List ℚ) : List ℚ :=
  (chunksList 160 audioData).foldl
    (fun acc frame =>
      match vad frame with
      | Except.ok true => acc ++ frame
      | Except.ok false => acc
      | Except.error _ => acc)
    []

/-- The resampling prefix of `perform_stt` (lines 52–64): when the input
rate differs from 16000 (`m::SAMPLE_RATE`), resample and treat the data
as mono from then on. -/
def preprocessAudio (core : ResamplerCore) (input : AudioInput) :
    Except SttFailure (List ℚ × Nat) :=
  if input.sampleRate ≠ 16000 then
    match resample core input.data input.channels input.sampleRate 16000 with
    | Except.ok d => Except.ok (d, 1)
    | Except.error e => Except.error (SttFailure.other e)
  else Except.ok (input.data, input.channels)

/-- Sanitisation of the device label for the persisted file name,
`stt/mod.rs` line 126: each of space, `:`, `/`, `\` becomes `_`. -/
def sanitizeDevice (device : String) : String :=
  device.map (fun c => if c = ' ' ∨ c = ':' ∨ c = '/' ∨ c = '\\' then '_' else c)

/-- Embedding of `stt/mod.rs::perform_stt` (lines 42–149).  The mp4
encoder (`encode_single_audio`, external) and the UTC timestamp string
are parameters.  Returns the transcription and the optional persisted
path, or a classified failure: `noSpeech` when the VAD-filtered buffer
is empty, `other` for resampling, engine or encoding failures (with the
primary-failure message wrapped exactly as in line 120 when no fallback
is configured). -/
def performStt (core : ResamplerCore) (primary : SttEngineFn)
    (fallback : Option SttEngineFn) (vad : VadFn)
    (encode : AudioInput → String → Except String Unit)
    (outputPath : Option String) (timeStr : String) (input : AudioInput) :
    Except SttFailure (String × Option String) :=
  match preprocessAudio core input with
  | Except.error e => Except.error e
  | Except.ok (audioData, newChannels) =>
    let speechFrames := speechBuffer vad audioData
    if speechFrames = [] then Except.error SttFailure.noSpeech
    else
      match
        (match primary speechFrames 16000 newChannels input.device with
         | Except.ok t => Except.ok t
         | Except.error e =>
           match fallback with
           | some fb =>
             match fb speechFrames 16000 newChannels input.device with
             | Except.ok t => Except.ok t
             | Except.error e2 => Except.error (SttFailure.other e2)
           | none =>
             Except.error (SttFailure.other
               ("Primary engine failed and no fallback configured: " ++ e)))
      with
      | Except.error e => Except.error e
      | Except.ok transcription =>
        match outputPath with
        | some dir =>
          let filePath :=
            dir ++ "/" ++ sanitizeDevice input.device ++ "_" ++ timeStr ++ ".mp4"
          match encode input filePath with
          | Except.ok _ => Except.ok (transcription, some filePath)
          | Except.error e => Except.error (SttFailure.other e)
        | none => Except.ok (transcription, none)

/-- Display string of a `perform_stt` failure as seen by
`handle_stt`'s `e.to_string()`: the `NoSpeech` kind renders through its
`thiserror` message `"No speech detected in the audio"`. -/
def failureMessage : SttFailure → String
  | SttFailure.noSpeech => "No speech detected in the audio"
  | SttFailure.other msg => msg

/-- Embedding of `stt/engines/mod.rs::handle_stt` (lines 163–198):
build the `TranscriptionResult` from the `perform_stt` outcome and,
exactly on the `NoSpeech` kind, publish `RecordingFinished` on the
state bus (returned here as the optional published value). -/
def handleStt (core : ResamplerCore) (primary : SttEngineFn)
    (fallback : Option SttEngineFn) (vad : VadFn)
    (encode : AudioInput → String → Except String Unit)
    (outputPath : Option String) (timeStr : String) (timestamp : Nat)
    (input : AudioInput) : TranscriptionResult × Option RecordingState :=
  match performStt core primary fallback vad encode outputPath timeStr input with
  | Except.ok (transcription, path) =>
    (⟨path.getD "", input, some transcription, timestamp, none⟩, none)
  | Except.error f =>
    (⟨"", input, none, timestamp, some (failureMessage f)⟩,
     match f with
     | SttFailure.noSpeech => some RecordingState.RecordingFinished
     | SttFailure.other _ => none)

/-! ## Capture-stream chunking (`core.rs::build_stream`) -/

/-- Accumulator of the hardware input callback: the internal sample
buffer plus the chunks emitted so far, in order. -/
structure StreamAcc (α : Type) where
  buffer : List α
  chunks : List (List α)
deriving DecidableEq, Repr

/-- One hardware callback of `core.rs::build_stream` (lines 192–208):
append the converted samples; when the buffer has reached
`chunk_duration × sample_rate × channels` samples, emit the whole
buffer (`buffer.split_off(0)`) as a chunk and reset. -/
def callbackStep (threshold : Nat) (acc : StreamAcc α) (data : List α) :
    StreamAcc α :=
  let buf := acc.buffer ++ data
  if threshold ≤ buf.length then ⟨[], acc.chunks ++ [buf]⟩
  else ⟨buf, acc.chunks⟩

/-- The chunk threshold of `build_stream` line 204:
`chunk_duration.as_secs() × sample_rate × channels`. -/
def chunkThreshold (durationSecs sampleRate channels : Nat) : Nat :=
  durationSecs * sampleRate * channels

/-- Run a capture stream over the ordered list of callback deliveries
(callbacks arriving while the alive flag is cleared are ignored by the
code, i.e. simply absent from the list).  When the stream stops, the
final `buffer` is dropped with the stream, never emitted. -/
def runStream (threshold : Nat) (callbacks : List (List α)) : StreamAcc α :=
  callbacks.foldl (callbackStep threshold) ⟨[], []⟩

/-! ## STT worker loop (`stt/engines/mod.rs::create_comm_channel`)

The spawned worker task (lines 106–158) is a loop with two phases: the
loop head samples the state bus (`has_changed()` then `borrow()`,
breaking on `Stopping`; neither call marks the value seen, so the
changed flag stays set once any publication happened), then a
`tokio::select!` awaits the ingress receiver — note the select has no
state-bus branch.  We embed it as a small-step system: the program
counter records which phase the task is in, and environment events
(bus publications, ingress arrivals, channel closures) interleave
freely with worker steps, as tokio allows at the await points.
Per-input processing is abstracted to its state-bus effect: `process`
returns the state value `handle_stt` publishes for that input, if any
(`RecordingFinished` on `NoSpeech`). -/

/-- Program counter of the STT worker task. -/
inductive WorkerPC where
  | checkState
  | awaitInput
  | exited
deriving DecidableEq, Repr

/-- Configuration of the STT worker plus the channels and bus it
observes.  `busChanged` is the tokio-watch "unseen version" flag read
by `has_changed()`; `dequeued` records the inputs taken from ingress,
in order. -/
structure WorkerConfig where
  pc : WorkerPC
  queue : List AudioInput
  ingressClosed : Bool
  egressOpen : Bool
  busVal : RecordingState
  busChanged : Bool
  dequeued : List AudioInput
deriving DecidableEq, Repr

/-- Events of a worker execution: environment actions on the bus and
channels, and one scheduler step of the worker task. -/
inductive WorkerEvent where
  | publish (s : RecordingState)
  | arrive (a : AudioInput)
  | closeIngress
  | closeEgress
  | workerStep
deriving DecidableEq, Repr

/-- Small-step semantics of the worker loop.  At `checkState` the task
breaks iff the bus has an unseen value and it is `Stopping` (lines
108–119).  At `awaitInput` the pending `recv()` completes when the
queue is non-empty (dequeue, process, forward to egress — a failed
egress send breaks, line 145) or when ingress is closed and empty (the
select `else` branch breaks, lines 153–155); otherwise the task stays
suspended. -/
def stepWorker (process : AudioInput → Option RecordingState)
    (c : WorkerConfig) : WorkerEvent → WorkerConfig
  | WorkerEvent.publish s => { c with busVal := s, busChanged := true }
  | WorkerEvent.arrive a =>
    if c.ingressClosed then c else { c with queue := c.queue ++ [a] }
  | WorkerEvent.closeIngress => { c with ingressClosed := true }
  | WorkerEvent.closeEgress => { c with egressOpen := false }
  | WorkerEvent.workerStep =>
    match c.pc with
    | WorkerPC.exited => c
    | WorkerPC.checkState =>
      if c.busChanged ∧ c.busVal = RecordingState.Stopping then
        { c with pc := WorkerPC.exited }
      else { c with pc := WorkerPC.awaitInput }
    | WorkerPC.awaitInput =>
      match c.queue with
      | a :: rest =>
        let published := process a
        { c with
          pc := if c.egressOpen then WorkerPC.checkState else WorkerPC.exited
          queue := rest
          dequeued := c.dequeued ++ [a]
          busVal := published.getD c.busVal
          busChanged := c.busChanged || published.isSome }
      | [] =>
        if c.ingressClosed then { c with pc := WorkerPC.exited } else c

/-- Initial worker configuration: loop head, empty open channels, bus
freshly created at `Initializing` with nothing unseen. -/
def initWorker : WorkerConfig :=
  ⟨WorkerPC.checkState, [], false, true, RecordingState.Initializing, false, []⟩

/-- Run the worker from a configuration over an event schedule. -/
def runWorkerFrom (process : AudioInput → Option RecordingState)
    (c : WorkerConfig) (evts : List WorkerEvent) : WorkerConfig :=
  evts.foldl (stepWorker process) c

/-- Run the worker from the initial configuration. -/
def runWorker (process : AudioInput → Option RecordingState)
    (evts : List WorkerEvent) : WorkerConfig :=
  runWorkerFrom process initWorker evts

/-! ## Recorder loop (`core.rs::record_and_transcribe`, lines 259–272)

The recorder's forwarding loop is
`while *state_rx.borrow() == Recording { if let Some(chunk) = rx.recv().await { forward } }`:
the loop head samples the bus, continuing only on `Recording`; the body
awaits the next chunk from the capture stream's channel and forwards it
on ingress. -/

/-- Program counter of a recorder task. -/
inductive RecorderPC where
  | checkState
  | awaitChunk
  | exited
deriving DecidableEq, Repr

/-- Configuration of a recorder: its view of the state bus, the
chunk channel fed by the capture callback, and the chunks forwarded to
ingress so far. -/
structure RecorderConfig where
  pc : RecorderPC
  busVal : RecordingState
  queue : List (List ℚ)
  chanClosed : Bool
  forwarded : List (List ℚ)
deriving DecidableEq, Repr

/-- Events of a recorder execution. -/
inductive RecorderEvent where
  | publish (s : RecordingState)
  | chunkArrive (chunk : List ℚ)
  | recStep
deriving DecidableEq, Repr

/-- Small-step semantics of the recorder loop: the loop head exits
whenever the sampled state differs from `Recording`; the body dequeues
and forwards a chunk when one is available (a `recv()` returning `None`
on a closed empty channel just falls through to the loop head). -/
def stepRecorder (c : RecorderConfig) : RecorderEvent → RecorderConfig
  | RecorderEvent.publish s => { c with busVal := s }
  | RecorderEvent.chunkArrive chunk =>
    if c.chanClosed then c else { c with queue := c.queue ++ [chunk] }
  | RecorderEvent.recStep =>
    match c.pc with
    | RecorderPC.exited => c
    | RecorderPC.checkState =>
      if c.busVal = RecordingState.Recording then
        { c with pc := RecorderPC.awaitChunk }
      else { c with pc := RecorderPC.exited }
    | RecorderPC.awaitChunk =>
      match c.queue with
      | chunk :: rest =>
        { c with
          pc := RecorderPC.checkState
          queue := rest
          forwarded := c.forwarded ++ [chunk] }
      | [] =>
        if c.chanClosed then { c with pc := RecorderPC.checkState } else c

/-- Initial recorder configuration (bus still at `Initializing`). -/
def initRecorder : RecorderConfig :=
  ⟨RecorderPC.checkState, RecordingState.Initializing, [], false, []⟩

/-- Run a recorder over an event schedule. -/
def runRecorder (evts : List RecorderEvent) : RecorderConfig :=
  evts.foldl stepRecorder initRecorder

/-! ## Supervisor sequencing (`bin/screenpipe-audio.rs`)

The effects of `main` on its happy path, in program order: channel and
worker creation (line 141), recorder spawning (149), waiting out
`Initializing` (150), keyboard and duration tasks (153–158), the
transcription loop `run_transcription_loop` (161) — whose final acts
are `state_tx.send(Stopping)` (line 325) and the bounded egress drain
(326) — and only then `shutdown_and_cleanup` (163), which joins the
recorder tasks (354–357) and the keyboard task (358). -/

/-- Ordered supervisor effects along `main`'s happy path. -/
inductive SupervisorAction where
  | spawnWorker
  | spawnRecorders
  | waitInitialization
  | spawnKeyboard
  | spawnDurationTimer
  | runLoopBody
  | publishStopping
  | drainEgress
  | joinRecorders
  | joinKeyboard
deriving DecidableEq, Repr

/-- The supervisor's effect order as written in
`bin/screenpipe-audio.rs::main`, `run_transcription_loop` and
`shutdown_and_cleanup`. -/
def supervisorSequence : List SupervisorAction :=
  [SupervisorAction.spawnWorker,
   SupervisorAction.spawnRecorders,
   SupervisorAction.waitInitialization,
   SupervisorAction.spawnKeyboard,
   SupervisorAction.spawnDurationTimer,
   SupervisorAction.runLoopBody,
   SupervisorAction.publishStopping,
   SupervisorAction.drainEgress,
   SupervisorAction.joinRecorders,
   SupervisorAction.joinKeyboard]

/-! ## Deepgram response handling (`stt/engines/deepgram.rs`) -/

/-- A JSON value as parsed by `serde_json`. -/
inductive Json where
  | null
  | bool (b : Bool)
  | num (q : ℚ)
  | str (s : String)
  | arr (elems : List Json)
  | obj (fields : List (String × Json))

/-- serde_json `Value::get(key)`: `Some` only on an object containing
the key. -/
def Json.getKey? (j : Json) (k : String) : Option Json :=
  match j with
  | Json.obj fields => fields.lookup k
  | _ => none

/-- serde_json's `Index<&str>` on `Value`: the entry when the value is
an object containing the key, `Null` otherwise. -/
def Json.indexKey (j : Json) (k : String) : Json :=
  (j.getKey? k).getD Json.null

/-- serde_json's `Index<usize>` on `Value`: the element when the value
is an array long enough, `Null` otherwise. -/
def Json.indexNat (j : Json) (i : Nat) : Json :=
  match j with
  | Json.arr elems => elems.getD i Json.null
  | _ => Json.null

/-- serde_json `Value::as_str`. -/
def Json.asStr? : Json → Option String
  | Json.str s => some s
  | _ => none

/-- The transcript-extraction path of
`DeepgramEngine::transcribe_with_deepgram` (deepgram.rs lines 87–115)
applied to a successfully parsed JSON body: a present `err_code` field
is an error; otherwise the transcript is read at
`results.channels[0].alternatives[0].transcript`, defaulting to the
empty string (`as_str().unwrap_or("")`). -/
def deepgramExtract (j : Json) : Except String String :=
  if (j.getKey? "err_code").isSome then
    Except.error "Deepgram API error"
  else
    Except.ok
      (((((((j.indexKey "results").indexKey "channels").indexNat 0).indexKey
        "alternatives").indexNat 0).indexKey "transcript").asStr?.getD "")

/-- Response handling of `transcribe_with_deepgram` after the HTTP
exchange (lines 86–120): a JSON parse failure is an error, a parsed
body goes through `deepgramExtract`. -/
def deepgramHandleResponse (parsed : Except String Json) :
    Except String String :=
  match parsed with
  | Except.ok j => deepgramExtract j
  | Except.error e => Except.error ("Failed to parse JSON response: " ++ e)

/-! ## Shared concrete test fixtures and helpers -/

/-- Contiguous-sublist test on character lists. -/
def subListOf (needle hay : List Char) : Bool :=
  if needle.isPrefixOf hay then true
  else
    match hay with
    | [] => false
    | _ :: t => subListOf needle t

/-- Case-sensitive substring containment on strings, the reading of
"error string containing …" used by the claims. -/
def strContains (needle hay : String) : Bool :=
  subListOf needle.toList hay.toList

/-- Discriminator for state-bus publication events. -/
def WorkerEvent.isPublish : WorkerEvent → Bool
  | WorkerEvent.publish _ => true
  | _ => false

/-- A processing abstraction that never publishes on the state bus
(no input classified `NoSpeech`). -/
def procNone : AudioInput → Option RecordingState := fun _ => none

/-- A concrete one-sample chunk used in execution counterexamples. -/
def sampleInput : AudioInput := ⟨[0], 16000, 1, "dev"⟩

/-! ## Claims -/

/-- Claim C10: if the Deepgram response parses as JSON, has no
`err_code` field, and has no string value at
`results.channels[0].alternatives[0].transcript`, then the response
handling returns success with the empty transcription rather than an
error. -/
theorem claim_C10_deepgram_missing_transcript_ok (j : Json)
    (hno : j.getKey? "err_code" = none)
    (hstr : ((((((j.indexKey "results").indexKey "channels").indexNat
      0).indexKey "alternatives").indexNat 0).indexKey "transcript").asStr?
        = none) :
    deepgramHandleResponse (Except.ok j) = Except.ok "" := by
  simp [deepgramHandleResponse, deepgramExtract, hno, hstr]

/-- Witness for C10 at the concrete JSON value `null`. -/
theorem claim_C10_witness :
    deepgramHandleResponse (Except.ok Json.null) = Except.ok "" :=
  claim_C10_deepgram_missing_transcript_ok Json.null rfl rfl

/-- Claim C7, settled against the code: when a target rate is
configured (16000) and differs from the input rate (48000), the REST
engine resamples the audio to the target rate and packages it as Int16,
but the WAV header's sample rate field is the *input* rate 48000, not
the configured target 16000 the claim requires
(`restpipe.rs` line 122 passes `sample_rate` to `create_wav`). -/
theorem claim_C7_header_rate_is_input_rate (core : ResamplerCore)
    (samples : List ℚ) :
    restPipeWav core (some 16000) samples 48000 2
      = Except.ok
          ⟨1, 48000, 16,
           WavData.int16
             ((core 48000 16000 (downmixMono 2 samples)).map toI16)⟩
    ∧ (48000 : Nat) ≠ 16000 := by
  exact ⟨rfl, by decide⟩

/-- Claim C9, settled against the code: (a) the STT worker's loop also
exits without ever observing `Stopping` — closing the ingress channel
suffices (the select! `else` branch); (b) in the supervisor's effect
order, `Stopping` is published (inside `run_transcription_loop`, line
325) strictly before the recorder tasks are joined
(`shutdown_and_cleanup`, line 354), the opposite of the mandated
order. -/
theorem claim_C9_code_divergence :
    ((runWorker procNone
        [WorkerEvent.workerStep, WorkerEvent.closeIngress,
         WorkerEvent.workerStep]).pc = WorkerPC.exited
      ∧ (runWorker procNone
          [WorkerEvent.workerStep, WorkerEvent.closeIngress,
           WorkerEvent.workerStep]).busVal ≠ RecordingState.Stopping
      ∧ ∀ e ∈ [WorkerEvent.workerStep, WorkerEvent.closeIngress,
               WorkerEvent.workerStep], e.isPublish = false)
    ∧ List.indexOf SupervisorAction.publishStopping supervisorSequence
        < List.indexOf SupervisorAction.joinRecorders supervisorSequence := by
  refine ⟨⟨rfl, by decide, by decide⟩, by decide⟩

/-- Claim C2, settled against the code: on the observed state sequence
`Recording`, `RecordingPaused`, `Recording`, the recorder loop
(`core.rs` line 259: `while *state_rx.borrow() == Recording`) exits
permanently at the `RecordingPaused` observation instead of suspending:
after the state returns to `Recording`, a newly arrived chunk `[2]`
stays queued forever and only the pre-pause chunk `[1]` was ever
forwarded. -/
theorem claim_C2_pause_exits_recorder :
    runRecorder
        [RecorderEvent.publish RecordingState.Recording,
         RecorderEvent.recStep,
         RecorderEvent.chunkArrive [1],
         RecorderEvent.recStep,
         RecorderEvent.publish RecordingState.RecordingPaused,
         RecorderEvent.recStep]
      = ⟨RecorderPC.exited, RecordingState.RecordingPaused, [], false, [[1]]⟩
    ∧ runRecorder
        [RecorderEvent.publish RecordingState.Recording,
         RecorderEvent.recStep,
         RecorderEvent.chunkArrive [1],
         RecorderEvent.recStep,
         RecorderEvent.publish RecordingState.RecordingPaused,
         RecorderEvent.recStep,
         RecorderEvent.publish RecordingState.Recording,
         RecorderEvent.chunkArrive [2],
         RecorderEvent.recStep,
         RecorderEvent.recStep]
      = ⟨RecorderPC.exited, RecordingState.Recording, [[2]], false, [[1]]⟩ :=
  ⟨rfl, rfl⟩

/-- Invariant of the capture-stream fold: with a positive threshold,
the internal buffer stays strictly below the threshold and every
emitted chunk has at least threshold many samples. -/
theorem stream_fold_invariant {α : Type} (threshold : Nat)
    (hpos : 0 < threshold) :
    ∀ (callbacks : List (List α)) (acc : StreamAcc α),
      acc.buffer.length < threshold →
      (∀ c ∈ acc.chunks, threshold ≤ c.length) →
      (callbacks.foldl (callbackStep threshold) acc).buffer.length < threshold
      ∧ ∀ c ∈ (callbacks.foldl (callbackStep threshold) acc).chunks,
          threshold ≤ c.length := by
  intro callbacks
  induction callbacks with
  | nil => intro acc h1 h2; exact ⟨h1, h2⟩
  | cons data rest ih =>
    intro acc h1 h2
    simp only [List.foldl_cons]
    by_cases hemit : threshold ≤ (acc.buffer ++ data).length
    · refine ih _ ?_ ?_
      · simp only [callbackStep, if_pos hemit]
        simpa using hpos
      · intro c hc
        simp only [callbackStep, if_pos hemit, List.mem_append,
          List.mem_singleton] at hc
        rcases hc with hc | hc
        · exact h2 c hc
        · subst hc; exact hemit
    · refine ih _ ?_ ?_
      · simp only [callbackStep, if_neg hemit]
        exact Nat.lt_of_not_le hemit
      · intro c hc
        simp only [callbackStep, if_neg hemit] at hc
        exact h2 c hc

/-- Claim C8, counterexample to exactness: with one-second chunks at
rate 3 and one channel the threshold is 3 samples, but two callbacks of
two samples each make the buffer reach length 4 before the check fires,
and the emitted chunk carries the whole buffer
(`buffer.split_off(0)`): its sample count is 4, not
`chunk_duration × sample_rate × channels = 3`. -/
theorem claim_C8_counterexample :
    (runStream (chunkThreshold 1 3 1) [[(1 : ℚ), 2], [3, 4]]).chunks
        = [[1, 2, 3, 4]]
    ∧ ([(1 : ℚ), 2, 3, 4].length ≠ chunkThreshold 1 3 1) :=
  ⟨rfl, by decide⟩

/-- Claim C8 as amended: every emitted chunk holds at least
`chunk_duration × sample_rate × channels` samples (the whole
accumulated buffer is emitted once it reaches the threshold, so the
count can exceed it), and the trailing partial buffer left when the
stream stops holds strictly fewer than threshold samples and is
discarded, never emitted. -/
theorem claim_C8_amended (durationSecs sampleRate channels : Nat)
    (callbacks : List (List ℚ))
    (hpos : 0 < chunkThreshold durationSecs sampleRate channels) :
    (∀ c ∈ (runStream (chunkThreshold durationSecs sampleRate channels)
        callbacks).chunks,
      chunkThreshold durationSecs sampleRate channels ≤ c.length)
    ∧ (runStream (chunkThreshold durationSecs sampleRate channels)
        callbacks).buffer.length
        < chunkThreshold durationSecs sampleRate channels := by
  have h := stream_fold_invariant (chunkThreshold durationSecs sampleRate channels)
    hpos callbacks ⟨[], []⟩ (by simpa using hpos) (by simp)
  exact ⟨h.2, h.1⟩

/-- Witness for the amended C8 at a concrete stream: one-second chunks,
rate 3, one channel, callbacks `[1,2]` then `[3,4]`. -/
theorem claim_C8_amended_witness :
    0 < chunkThreshold 1 3 1
    ∧ ((∀ c ∈ (runStream (chunkThreshold 1 3 1) [[(1 : ℚ), 2], [3, 4]]).chunks,
          chunkThreshold 1 3 1 ≤ c.length)
       ∧ (runStream (chunkThreshold 1 3 1)
            [[(1 : ℚ), 2], [3, 4]]).buffer.length < chunkThreshold 1 3 1) :=
  ⟨by decide, claim_C8_amended 1 3 1 [[(1 : ℚ), 2], [3, 4]] (by decide)⟩

/-- How many further dequeues the worker can still perform once the bus
holds an unseen `Stopping`: one if it is already inside the select
awaiting ingress, none otherwise. -/
def pcBound : WorkerPC → Nat
  | WorkerPC.awaitInput => 1
  | _ => 0

/-- Drain bound for the worker: from any configuration whose bus holds
an unseen `Stopping`, over any publication-free continuation with
non-publishing processing, the dequeue count grows by at most
`pcBound`. -/
theorem worker_drain_bound (process : AudioInput → Option RecordingState)
    (hp : ∀ a, process a = none) :
    ∀ (evts : List WorkerEvent) (c : WorkerConfig),
      (∀ e ∈ evts, e.isPublish = false) →
      c.busVal = RecordingState.Stopping → c.busChanged = true →
      (runWorkerFrom process c evts).dequeued.length
        ≤ c.dequeued.length + pcBound c.pc := by
  intro evts
  induction evts with
  | nil =>
    intro c _ _ _
    simp [runWorkerFrom, Nat.le_add_right]
  | cons e rest ih =>
    intro c hne hbus hch
    obtain ⟨pc, queue, icl, eg, bv, bch, dq⟩ := c
    dsimp only at hbus hch
    subst hbus
    subst hch
    have hne' : ∀ x ∈ rest, x.isPublish = false :=
      fun x hx => hne x (List.mem_cons_of_mem _ hx)
    have hstep : ∀ c', runWorkerFrom process c' (e :: rest)
        = runWorkerFrom process (stepWorker process c' e) rest :=
      fun c' => rfl
    rw [hstep]
    cases e with
    | publish s =>
      have := hne _ (List.mem_cons_self _ _)
      simp [WorkerEvent.isPublish] at this
    | arrive a =>
      cases icl with
      | true =>
        exact ih ⟨pc, queue, true, eg, RecordingState.Stopping, true, dq⟩
          hne' rfl rfl
      | false =>
        exact ih ⟨pc, queue ++ [a], false, eg, RecordingState.Stopping, true, dq⟩
          hne' rfl rfl
    | closeIngress =>
      exact ih ⟨pc, queue, true, eg, RecordingState.Stopping, true, dq⟩
        hne' rfl rfl
    | closeEgress =>
      exact ih ⟨pc, queue, icl, false, RecordingState.Stopping, true, dq⟩
        hne' rfl rfl
    | workerStep =>
      cases pc with
      | exited =>
        exact ih ⟨WorkerPC.exited, queue, icl, eg, RecordingState.Stopping,
          true, dq⟩ hne' rfl rfl
      | checkState =>
        have h := ih ⟨WorkerPC.exited, queue, icl, eg, RecordingState.Stopping,
          true, dq⟩ hne' rfl rfl
        have hred : stepWorker process
            ⟨WorkerPC.checkState, queue, icl, eg, RecordingState.Stopping,
              true, dq⟩ WorkerEvent.workerStep
            = ⟨WorkerPC.exited, queue, icl, eg, RecordingState.Stopping,
              true, dq⟩ := by
          simp [stepWorker]
        rw [hred]
        simpa [pcBound] using h
      | awaitInput =>
        cases queue with
        | nil =>
          cases icl with
          | true =>
            have h := ih ⟨WorkerPC.exited, [], true, eg,
              RecordingState.Stopping, true, dq⟩ hne' rfl rfl
            have hred : stepWorker process
                ⟨WorkerPC.awaitInput, [], true, eg,
                  RecordingState.Stopping, true, dq⟩ WorkerEvent.workerStep
                = ⟨WorkerPC.exited, [], true, eg,
                  RecordingState.Stopping, true, dq⟩ := by
              simp [stepWorker]
            rw [hred]
            calc (runWorkerFrom process
                    ⟨WorkerPC.exited, [], true, eg,
                      RecordingState.Stopping, true, dq⟩
                    rest).dequeued.length
                ≤ dq.length + pcBound WorkerPC.exited := h
              _ ≤ dq.length + pcBound WorkerPC.awaitInput := by simp [pcBound]
          | false =>
            have h := ih ⟨WorkerPC.awaitInput, [], false, eg,
              RecordingState.Stopping, true, dq⟩ hne' rfl rfl
            simpa [stepWorker, pcBound] using h
        | cons a rest' =>
          have hpa := hp a
          cases eg with
          | true =>
            have h := ih ⟨WorkerPC.checkState, rest', icl, true,
              RecordingState.Stopping, true, dq ++ [a]⟩ hne' rfl rfl
            have hred : stepWorker process
                ⟨WorkerPC.awaitInput, a :: rest', icl, true,
                  RecordingState.Stopping, true, dq⟩ WorkerEvent.workerStep
                = ⟨WorkerPC.checkState, rest', icl, true,
                  RecordingState.Stopping, true, dq ++ [a]⟩ := by
              simp [stepWorker, hpa]
            rw [hred]
            calc (runWorkerFrom process
                    ⟨WorkerPC.checkState, rest', icl, true,
                      RecordingState.Stopping, true, dq ++ [a]⟩
                    rest).dequeued.length
                ≤ (dq ++ [a]).length + pcBound WorkerPC.checkState := h
              _ = dq.length + 1 := by simp [pcBound]
              _ ≤ dq.length + pcBound WorkerPC.awaitInput := by simp [pcBound]
          | false =>
            have h := ih ⟨WorkerPC.exited, rest', icl, false,
              RecordingState.Stopping, true, dq ++ [a]⟩ hne' rfl rfl
            have hred : stepWorker process
                ⟨WorkerPC.awaitInput, a :: rest', icl, false,
                  RecordingState.Stopping, true, dq⟩ WorkerEvent.workerStep
                = ⟨WorkerPC.exited, rest', icl, false,
                  RecordingState.Stopping, true, dq ++ [a]⟩ := by
              simp [stepWorker, hpa]
            rw [hred]
            calc (runWorkerFrom process
                    ⟨WorkerPC.exited, rest', icl, false,
                      RecordingState.Stopping, true, dq ++ [a]⟩
                    rest).dequeued.length
                ≤ (dq ++ [a]).length + pcBound WorkerPC.exited := h
              _ = dq.length + 1 := by simp [pcBound]
              _ ≤ dq.length + pcBound WorkerPC.awaitInput := by simp [pcBound]

/-- The worker can owe at most one dequeue. -/
theorem pcBound_le_one (pc : WorkerPC) : pcBound pc ≤ 1 := by
  cases pc <;> simp [pcBound]

/-- Claim C1, counterexample as stated: the worker's loop samples the
bus only at the loop head and then awaits ingress with no state-bus
select branch, so when `Stopping` is published while the worker already
sits in `recv()`, a subsequently arriving `AudioInput` is still
dequeued.  Before the publication nothing was dequeued; after it, one
input is. -/
theorem claim_C1_counterexample :
    (runWorker procNone
        [WorkerEvent.workerStep,
         WorkerEvent.publish RecordingState.Stopping]).dequeued = []
    ∧ (runWorker procNone
        [WorkerEvent.workerStep,
         WorkerEvent.publish RecordingState.Stopping,
         WorkerEvent.arrive sampleInput,
         WorkerEvent.workerStep]).dequeued = [sampleInput] :=
  ⟨rfl, rfl⟩

/-- Claim C1 as amended: once `Stopping` has been published, provided
no further state value is published afterwards (neither by controllers
nor by the worker's own `NoSpeech` handling), the worker dequeues at
most one further `AudioInput` — the one whose `recv()` it may already
be awaiting; moreover any loop-head check that observes the unseen
`Stopping` exits the loop immediately without dequeuing. -/
theorem claim_C1_amended (process : AudioInput → Option RecordingState)
    (pre post : List WorkerEvent)
    (hp : ∀ a, process a = none)
    (hpost : ∀ e ∈ post, e.isPublish = false) :
    ((runWorker process
        (pre ++ WorkerEvent.publish RecordingState.Stopping :: post)).dequeued.length
      ≤ (runWorker process
          (pre ++ [WorkerEvent.publish RecordingState.Stopping])).dequeued.length
        + 1)
    ∧ ∀ c : WorkerConfig, c.pc = WorkerPC.checkState → c.busChanged = true →
        c.busVal = RecordingState.Stopping →
        (stepWorker process c WorkerEvent.workerStep).pc = WorkerPC.exited
        ∧ (stepWorker process c WorkerEvent.workerStep).dequeued = c.dequeued := by
  constructor
  · have hsplit : pre ++ WorkerEvent.publish RecordingState.Stopping :: post
        = (pre ++ [WorkerEvent.publish RecordingState.Stopping]) ++ post := by
      simp
    rw [hsplit]
    have hrun : runWorker process
        ((pre ++ [WorkerEvent.publish RecordingState.Stopping]) ++ post)
        = runWorkerFrom process
            (runWorker process (pre ++ [WorkerEvent.publish RecordingState.Stopping]))
            post := by
      simp [runWorker, runWorkerFrom, List.foldl_append]
    rw [hrun]
    have hc1 : runWorker process (pre ++ [WorkerEvent.publish RecordingState.Stopping])
        = stepWorker process (runWorker process pre)
            (WorkerEvent.publish RecordingState.Stopping) := by
      simp [runWorker, runWorkerFrom, List.foldl_append]
    have hbus : (runWorker process
        (pre ++ [WorkerEvent.publish RecordingState.Stopping])).busVal
        = RecordingState.Stopping := by
      rw [hc1]; rfl
    have hch : (runWorker process
        (pre ++ [WorkerEvent.publish RecordingState.Stopping])).busChanged
        = true := by
      rw [hc1]; rfl
    exact le_trans
      (worker_drain_bound process hp post _ hpost hbus hch)
      (Nat.add_le_add_left (pcBound_le_one _) _)
  · intro c h1 h2 h3
    obtain ⟨pc, queue, icl, eg, bv, bch, dq⟩ := c
    dsimp only at h1 h2 h3
    subst h1
    subst h2
    subst h3
    constructor
    · simp [stepWorker]
    · simp [stepWorker]

/-- Witness for the amended C1 at the empty schedule around the
`Stopping` publication. -/
theorem claim_C1_amended_witness :
    (runWorker procNone
        ([] ++ WorkerEvent.publish RecordingState.Stopping :: [])).dequeued.length
      ≤ (runWorker procNone
          ([] ++ [WorkerEvent.publish RecordingState.Stopping])).dequeued.length
        + 1 :=
  (claim_C1_amended procNone [] [] (fun _ => rfl) (by simp)).1

/-- Identity resampler core used in concrete evaluations. -/
def coreId : ResamplerCore := fun _ _ w => w

/-- VAD stub classifying every frame as non-voice. -/
def vadNever : VadFn := fun _ => Except.ok false

/-- VAD stub classifying every frame as voice. -/
def vadAlways : VadFn := fun _ => Except.ok true

/-- STT engine stub that always fails. -/
def engineFail : SttEngineFn := fun _ _ _ _ => Except.error "boom"

/-- STT engine stub that always succeeds with `"fallback ok"`. -/
def engineFallbackOk : SttEngineFn := fun _ _ _ _ => Except.ok "fallback ok"

/-- An mp4 encoder stub that always succeeds. -/
def encodeOk : AudioInput → String → Except String Unit :=
  fun _ _ => Except.ok ()

/-- Claim C4, counterexample to the literal error-string condition: on
an input whose VAD-filtered speech buffer is empty, the emitted
`TranscriptionResult` carries `transcription = none` and the error
string `"No speech detected in the audio"` (the `NoSpeech` kind's
display, `stt/mod.rs` line 30), and `RecordingFinished` is published —
but that string does not contain the claimed substring `"no speech"`
(capital `N` in the code). -/
theorem claim_C4_counterexample :
    handleStt coreId engineFail none vadNever encodeOk none "ts" 7 sampleInput
      = (⟨"", sampleInput, none, 7, some "No speech detected in the audio"⟩,
         some RecordingState.RecordingFinished)
    ∧ strContains "no speech" "No speech detected in the audio" = false :=
  ⟨rfl, by decide⟩

/-- Claim C4 as amended: for every `AudioInput` whose samples yield an
empty speech buffer after VAD filtering, `perform_stt` fails with kind
`NoSpeech`; the worker's `handle_stt` then publishes
`RecordingFinished` on the state bus and emits a `TranscriptionResult`
with `transcription = none` and the non-empty error string
`"No speech detected in the audio"` (containing `"No speech"`). -/
theorem claim_C4_amended (core : ResamplerCore) (primary : SttEngineFn)
    (fallback : Option SttEngineFn) (vad : VadFn)
    (encode : AudioInput → String → Except String Unit)
    (outputPath : Option String) (timeStr : String) (timestamp : Nat)
    (input : AudioInput) (d : List ℚ) (nc : Nat)
    (hpre : preprocessAudio core input = Except.ok (d, nc))
    (hempty : speechBuffer vad d = []) :
    performStt core primary fallback vad encode outputPath timeStr input
      = Except.error SttFailure.noSpeech
    ∧ handleStt core primary fallback vad encode outputPath timeStr timestamp
        input
      = (⟨"", input, none, timestamp, some "No speech detected in the audio"⟩,
         some RecordingState.RecordingFinished)
    ∧ "No speech detected in the audio" ≠ ""
    ∧ strContains "No speech" "No speech detected in the audio" = true := by
  have h1 : performStt core primary fallback vad encode outputPath timeStr input
      = Except.error SttFailure.noSpeech := by
    simp [performStt, hpre, hempty]
  refine ⟨h1, ?_, by decide, by decide⟩
  simp [handleStt, h1, failureMessage]

/-- Witness for the amended C4: one zero sample at 16 kHz mono with a
VAD that reports non-voice. -/
theorem claim_C4_amended_witness :
    performStt coreId engineFail none vadNever encodeOk none "ts" sampleInput
      = Except.error SttFailure.noSpeech
    ∧ handleStt coreId engineFail none vadNever encodeOk none "ts" 7 sampleInput
      = (⟨"", sampleInput, none, 7, some "No speech detected in the audio"⟩,
         some RecordingState.RecordingFinished)
    ∧ "No speech detected in the audio" ≠ ""
    ∧ strContains "No speech" "No speech detected in the audio" = true :=
  claim_C4_amended coreId engineFail none vadNever encodeOk none "ts" 7
    sampleInput [0] 1 rfl rfl

/-- Claim C5: for every `AudioInput` with detected speech (non-empty
VAD output), if the primary engine fails and a fallback is configured,
the fallback is invoked on the same speech samples and its successful
result is emitted with `error = none`; if no fallback is configured,
the emitted result has `transcription = none` and the primary's error
message attached. -/
theorem claim_C5_fallback_semantics (core : ResamplerCore)
    (primary fb : SttEngineFn) (vad : VadFn)
    (encode : AudioInput → String → Except String Unit)
    (timeStr : String) (timestamp : Nat) (input : AudioInput)
    (d : List ℚ) (nc : Nat) (e t : String)
    (hpre : preprocessAudio core input = Except.ok (d, nc))
    (hspeech : speechBuffer vad d ≠ []) :
    ((primary (speechBuffer vad d) 16000 nc input.device = Except.error e →
      fb (speechBuffer vad d) 16000 nc input.device = Except.ok t →
      handleStt core primary (some fb) vad encode none timeStr timestamp input
        = (⟨"", input, some t, timestamp, none⟩, none))
    ∧ (primary (speechBuffer vad d) 16000 nc input.device = Except.error e →
      handleStt core primary none vad encode none timeStr timestamp input
        = (⟨"", input, none, timestamp,
            some ("Primary engine failed and no fallback configured: " ++ e)⟩,
           none))) := by
  constructor
  · intro hprim hfbOk
    have hperf : performStt core primary (some fb) vad encode none timeStr input
        = Except.ok (t, none) := by
      simp [performStt, hpre, hspeech, hprim, hfbOk]
    simp [handleStt, hperf]
  · intro hprim
    have hperf : performStt core primary none vad encode none timeStr input
        = Except.error (SttFailure.other
            ("Primary engine failed and no fallback configured: " ++ e)) := by
      simp [performStt, hpre, hspeech, hprim]
    simp [handleStt, hperf, failureMessage]

/-- Witness for C5: one voiced sample, a failing primary and a
succeeding fallback. -/
theorem claim_C5_witness :
    (engineFail [(0 : ℚ)] 16000 1 "dev" = Except.error "boom" →
      engineFallbackOk [(0 : ℚ)] 16000 1 "dev" = Except.ok "fallback ok" →
      handleStt coreId engineFail (some engineFallbackOk) vadAlways encodeOk
          none "ts" 7 sampleInput
        = (⟨"", sampleInput, some "fallback ok", 7, none⟩, none))
    ∧ (engineFail [(0 : ℚ)] 16000 1 "dev" = Except.error "boom" →
      handleStt coreId engineFail none vadAlways encodeOk none "ts" 7
          sampleInput
        = (⟨"", sampleInput, none, 7,
            some ("Primary engine failed and no fallback configured: "
              ++ "boom")⟩, none)) :=
  claim_C5_fallback_semantics coreId engineFail engineFallbackOk vadAlways
    encodeOk "ts" 7 sampleInput [0] 1 "boom" "fallback ok" rfl (by decide)

/-- `chunksGo` on the empty list is empty at any fuel. -/
theorem chunksGo_nil {α : Type} (n f : Nat) :
    chunksGo n f ([] : List α) = [] := by
  cases f <;> rfl

/-- `chunksGo` is fuel-stable above the list length. -/
theorem chunksGo_congr {α : Type} {n : Nat} (hn : 0 < n) :
    ∀ (f1 f2 : Nat) (l : List α), l.length ≤ f1 → l.length ≤ f2 →
      chunksGo n f1 l = chunksGo n f2 l := by
  intro f1
  induction f1 with
  | zero =>
    intro f2 l h1 _
    have hl : l = [] := List.eq_nil_of_length_eq_zero (Nat.le_zero.mp h1)
    subst hl
    rw [chunksGo_nil, chunksGo_nil]
  | succ f1 ih =>
    intro f2 l h1 h2
    cases l with
    | nil => rw [chunksGo_nil, chunksGo_nil]
    | cons a t =>
      cases f2 with
      | zero => simp at h2
      | succ f2 =>
        show (a :: t).take n :: chunksGo n f1 ((a :: t).drop n)
            = (a :: t).take n :: chunksGo n f2 ((a :: t).drop n)
        have hlen : ((a :: t).drop n).length ≤ f1 := by
          rw [List.length_drop]
          simp only [List.length_cons] at h1 ⊢
          omega
        have hlen2 : ((a :: t).drop n).length ≤ f2 := by
          rw [List.length_drop]
          simp only [List.length_cons] at h2 ⊢
          omega
        rw [ih _ _ hlen hlen2]

/-- Unfolding equation for `chunksList` on a non-empty list. -/
theorem chunksList_cons {α : Type} {n : Nat} (hn : 0 < n) (l : List α)
    (hl : l ≠ []) :
    chunksList n l = l.take n :: chunksList n (l.drop n) := by
  cases l with
  | nil => exact absurd rfl hl
  | cons a t =>
    have hne : n ≠ 0 := Nat.pos_iff_ne_zero.mp hn
    simp only [chunksList, if_neg hne]
    show (a :: t).take n :: chunksGo n t.length ((a :: t).drop n)
        = (a :: t).take n :: chunksGo n ((a :: t).drop n).length ((a :: t).drop n)
    rw [chunksGo_congr hn t.length ((a :: t).drop n).length ((a :: t).drop n)
      (by rw [List.length_drop]; simp only [List.length_cons]; omega)
      (le_refl _)]

/-- The `i`-th complete chunk of `chunksList n l` is the `i`-th frame
`(l.drop (n*i)).take n`. -/
theorem chunksList_getElem? {α : Type} {n : Nat} (hn : 0 < n) :
    ∀ (i : Nat) (l : List α), n * (i + 1) ≤ l.length →
      (chunksList n l)[i]? = some ((l.drop (n * i)).take n) := by
  intro i
  induction i with
  | zero =>
    intro l hi
    have hl : l ≠ [] := by
      intro h
      subst h
      simp at hi
      omega
    rw [chunksList_cons hn l hl]
    simp
  | succ i ih =>
    intro l hi
    have hl : l ≠ [] := by
      intro h
      subst h
      simp at hi
      omega
    rw [chunksList_cons hn l hl]
    rw [List.getElem?_cons_succ]
    have hlen : n * (i + 1) ≤ (l.drop n).length := by
      rw [List.length_drop]
      have : n * (i + 1 + 1) = n * (i + 1) + n := by ring
      omega
    rw [ih (l.drop n) hlen, List.drop_drop]
    have harith : n + n * i = n * (i + 1) := by ring
    rw [harith]

/-- Claim C6: `resample` is mono-producing for any `in_channels ≥ 1`
(the wave list handed back by the one-output-channel sinc stage has
exactly one channel), and when `in_channels > 1` the signal is first
down-mixed by taking, for every complete frame, the arithmetic mean of
the frame's channel samples. -/
theorem claim_C6_resample_mono (core : ResamplerCore) (input : List ℚ)
    (channels fromRate toRate : Nat) (hch : 1 ≤ channels) :
    (resampleWaves core input channels fromRate toRate).length = 1
    ∧ (1 < channels → ∀ i, channels * (i + 1) ≤ input.length →
        ((input.drop (channels * i)).take channels).length = channels
        ∧ (downmixMono channels input).getD i 0
            = ((input.drop (channels * i)).take channels).sum
              / (((input.drop (channels * i)).take channels).length : ℚ)) := by
  refine ⟨rfl, ?_⟩
  intro hgt i hi
  have hn : 0 < channels := hch
  have hi' : channels * i + channels ≤ input.length := by
    have hexp : channels * (i + 1) = channels * i + channels := by ring
    omega
  have hframe : ((input.drop (channels * i)).take channels).length = channels := by
    rw [List.length_take, List.length_drop]
    omega
  refine ⟨hframe, ?_⟩
  have hq := chunksList_getElem? hn i input hi
  rw [downmixMono, if_pos hgt, List.getD_eq_getElem?_getD,
    List.getElem?_map, hq, hframe]
  simp

/-- Witness for C6 at a concrete stereo signal `[1, 2, 3, 4]`. -/
theorem claim_C6_witness :
    (1 : Nat) ≤ 2
    ∧ ((resampleWaves coreId [1, 2, 3, 4] 2 48000 16000).length = 1
      ∧ (1 < 2 → ∀ i, 2 * (i + 1) ≤ ([1, 2, 3, 4] : List ℚ).length →
          ((([1, 2, 3, 4] : List ℚ).drop (2 * i)).take 2).length = 2
          ∧ (downmixMono 2 [1, 2, 3, 4]).getD i 0
              = ((([1, 2, 3, 4] : List ℚ).drop (2 * i)).take 2).sum
                / (((([1, 2, 3, 4] : List ℚ).drop (2 * i)).take 2).length : ℚ))) :=
  ⟨by decide, claim_C6_resample_mono coreId [1, 2, 3, 4] 2 48000 16000 (by decide)⟩

/-- A non-whitespace member of a list survives `dropWhile wsChar`. -/
theorem mem_dropWhile_of_not_ws {c : Char} :
    ∀ {s : List Char}, c ∈ s → wsChar c = false → c ∈ s.dropWhile wsChar := by
  intro s
  induction s with
  | nil => intro hc _; simp at hc
  | cons a t ih =>
    intro hc hw
    rw [List.dropWhile_cons]
    by_cases ha : wsChar a = true
    · rw [if_pos ha]
      rcases List.mem_cons.mp hc with hca | hct
      · subst hca; rw [hw] at ha; simp at ha
      · exact ih hct hw
    · rw [if_neg ha]
      exact hc

/-- A list containing a non-whitespace character does not trim to
empty. -/
theorem rustTrim_ne_nil_of_mem {c : Char} {s : List Char}
    (hc : c ∈ s) (hw : wsChar c = false) : rustTrim s ≠ [] := by
  intro h
  have h1 : (s.dropWhile wsChar).reverse.dropWhile wsChar = [] := by
    have h0 : ((s.dropWhile wsChar).reverse.dropWhile wsChar).reverse = [] := h
    exact List.reverse_eq_nil_iff.mp h0
  have h2 := List.dropWhile_eq_nil_iff.mp h1
  have h3 : c ∈ s.dropWhile wsChar := mem_dropWhile_of_not_ws hc hw
  have h4 : c ∈ (s.dropWhile wsChar).reverse := List.mem_reverse.mpr h3
  have h5 := h2 c h4
  rw [hw] at h5
  simp at h5

/-- Stripping a single round of a `)`-terminated suffix from
`name ++ " " ++ suffix` yields `name ++ " "`, and no further round
matches. -/
theorem trimEndMatches_display_suffix (sfx : List Char) (hne : sfx ≠ [])
    (hlast : sfx.getLast? = some ')') (name : List Char) :
    trimEndMatches sfx ((name ++ [' ']) ++ sfx) = name ++ [' '] := by
  have hnotsuf : ¬ sfx <:+ (name ++ [' ']) := by
    intro hsuf
    obtain ⟨t, ht⟩ := hsuf
    have h1 : (t ++ sfx).getLast? = some ')' := by
      rw [List.getLast?_append_of_ne_nil _ hne]
      exact hlast
    rw [ht] at h1
    rw [List.getLast?_append_of_ne_nil _
      (by simp : ([' '] : List Char) ≠ [])] at h1
    simp at h1
  have hsufb : sfx.isSuffixOf ((name ++ [' ']) ++ sfx) = true :=
    List.isSuffixOf_iff_suffix.mpr (List.suffix_append _ _)
  have hslen : ((name ++ [' ']) ++ sfx).length
      = (name.length + sfx.length) + 1 := by
    simp [List.length_append]
    omega
  have htake : ((name ++ [' ']) ++ sfx).take
      (((name ++ [' ']) ++ sfx).length - sfx.length) = name ++ [' '] := by
    rw [hslen]
    have harith : (name.length + sfx.length) + 1 - sfx.length
        = (name ++ [' ']).length := by
      simp [List.length_append]
      omega
    rw [harith, List.take_left]
  have hnotb : ¬ (sfx ≠ [] ∧ sfx.isSuffixOf (name ++ [' ']) = true) := by
    rintro ⟨_, hb⟩
    exact hnotsuf (List.isSuffixOf_iff_suffix.mp hb)
  rw [trimEndMatches, hslen]
  show temGo sfx ((name.length + sfx.length) + 1) ((name ++ [' ']) ++ sfx)
      = name ++ [' ']
  rw [temGo, if_pos ⟨hne, hsufb⟩]
  rw [htake]
  cases hf : name.length + sfx.length with
  | zero => rfl
  | succ f =>
    rw [temGo, if_neg hnotb]

/-- Appending one space to a trim-stable name trims back to the name. -/
theorem rustTrim_append_space (name : List Char)
    (h : rustTrim name = name) : rustTrim (name ++ [' ']) = name := by
  cases name with
  | nil => decide
  | cons a t =>
    have hstart : rustTrimStart (a :: t) = a :: t := by
      have l1 : (rustTrim (a :: t)).length ≤ (rustTrimStart (a :: t)).length := by
        show (((rustTrimStart (a :: t)).reverse.dropWhile
          wsChar).reverse).length ≤ _
        rw [List.length_reverse]
        calc ((rustTrimStart (a :: t)).reverse.dropWhile wsChar).length
            ≤ (rustTrimStart (a :: t)).reverse.length :=
              List.IsSuffix.length_le (List.dropWhile_suffix _)
          _ = (rustTrimStart (a :: t)).length := List.length_reverse _
      have l2 : (rustTrimStart (a :: t)).length ≤ (a :: t).length :=
        List.IsSuffix.length_le (List.dropWhile_suffix _)
      have l3 : (rustTrim (a :: t)).length = (a :: t).length := by rw [h]
      exact List.IsSuffix.eq_of_length (List.dropWhile_suffix _) (by omega)
    have hws_a : wsChar a = false := by
      by_contra hcontra
      have ha : wsChar a = true := by
        cases hq : wsChar a
        · exact absurd hq hcontra
        · rfl
      have hdrop : rustTrimStart (a :: t) = List.dropWhile wsChar t := by
        show List.dropWhile wsChar (a :: t) = _
        rw [List.dropWhile_cons, if_pos ha]
      have : (List.dropWhile wsChar t).length ≤ t.length :=
        List.IsSuffix.length_le (List.dropWhile_suffix _)
      rw [hstart] at hdrop
      have : (a :: t).length ≤ t.length := by
        rw [hdrop]
        exact this
      simp at this
    have hend : rustTrimEnd (a :: t) = a :: t := by
      have h' := h
      rw [rustTrim, hstart] at h'
      exact h'
    have hrev : (a :: t).reverse.dropWhile wsChar = (a :: t).reverse := by
      have h0 := congrArg List.reverse hend
      simp only [rustTrimEnd] at h0
      rw [List.reverse_reverse] at h0
      exact h0
    show rustTrimEnd (rustTrimStart ((a :: t) ++ [' '])) = a :: t
    have hstart2 : rustTrimStart ((a :: t) ++ [' ']) = (a :: t) ++ [' '] := by
      show List.dropWhile wsChar (a :: (t ++ [' '])) = _
      rw [List.dropWhile_cons, if_neg (by rw [hws_a]; simp)]
      rfl
    rw [hstart2]
    show (((a :: t) ++ [' ']).reverse.dropWhile wsChar).reverse = a :: t
    rw [List.reverse_append]
    show ((' ' :: (a :: t).reverse).dropWhile wsChar).reverse = a :: t
    rw [List.dropWhile_cons, if_pos (by decide), hrev, List.reverse_reverse]

/-- Lowercasing distributes over the display concatenation and fixes
the ASCII suffix. -/
theorem lowerList_display (name sfx : List Char)
    (hfix : lowerList sfx = sfx) :
    lowerList ((name ++ [' ']) ++ sfx) = lowerList (name ++ [' ']) ++ sfx := by
  show ((name ++ [' ']) ++ sfx).map Char.toLower = _
  rw [List.map_append]
  rw [show sfx.map Char.toLower = lowerList sfx from rfl, hfix]
  rfl

/-- The lowercase of an output-form display never ends in
`"(input)"`. -/
theorem input_not_suffix_of_output_display (name : List Char) :
    inputSuffix.isSuffixOf (lowerList ((name ++ [' ']) ++ outputSuffix))
      = false := by
  rw [Bool.eq_false_iff]
  intro hsufb
  have hsuf := List.isSuffixOf_iff_suffix.mp hsufb
  rw [lowerList_display name outputSuffix (by decide)] at hsuf
  rw [List.suffix_iff_eq_drop] at hsuf
  have hlen : (lowerList (name ++ [' ']) ++ outputSuffix).length
      = (lowerList (name ++ [' '])).length + 8 := by
    rw [List.length_append]
    rw [show outputSuffix.length = 8 from by decide]
  rw [hlen, show inputSuffix.length = 7 from by decide] at hsuf
  rw [show (lowerList (name ++ [' '])).length + 8 - 7
      = (lowerList (name ++ [' '])).length + 1 from by omega] at hsuf
  rw [List.drop_append 1] at hsuf
  exact absurd hsuf (by decide)

/-- Claim C3, counterexample as stated: the device named `"x "`
(trailing space) displays as `"x  (input)"`, which parses back to the
device named `"x"` — `from_name` trims the recovered name, so the
round-trip fails for names with leading or trailing whitespace. -/
theorem claim_C3_counterexample :
    AudioDevice.fromName (AudioDevice.display ⟨['x', ' '], DeviceType.Input⟩)
      ≠ some ⟨['x', ' '], DeviceType.Input⟩ := by
  decide

/-- Claim C3 as amended: for every `AudioDevice` whose name has no
leading or trailing whitespace (is fixed by `trim`), parsing the
display form with `AudioDevice::from_name` succeeds and returns a
device equal to the original. -/
theorem claim_C3_amended (d : AudioDevice) (h : rustTrim d.name = d.name) :
    AudioDevice.fromName (AudioDevice.display d) = some d := by
  obtain ⟨name, kind⟩ := d
  dsimp only at h
  cases kind with
  | Input =>
    have hdisp : AudioDevice.display ⟨name, DeviceType.Input⟩
        = (name ++ [' ']) ++ inputSuffix := by
      show name ++ (' ' :: inputSuffix) = _
      rw [List.append_cons]
    rw [hdisp]
    have hne1 : rustTrim ((name ++ [' ']) ++ inputSuffix) ≠ [] :=
      rustTrim_ne_nil_of_mem
        (List.mem_append.mpr (Or.inr (by decide : '(' ∈ inputSuffix)))
        (by decide)
    have hsuf : inputSuffix.isSuffixOf
        (lowerList ((name ++ [' ']) ++ inputSuffix)) = true := by
      apply List.isSuffixOf_iff_suffix.mpr
      rw [lowerList_display name inputSuffix (by decide)]
      exact List.suffix_append _ _
    rw [AudioDevice.fromName]
    rw [if_neg (fun hemp => hne1 (List.isEmpty_iff.mp hemp))]
    rw [if_pos hsuf]
    rw [trimEndMatches_display_suffix inputSuffix (by decide) (by decide) name]
    rw [rustTrim_append_space name h]
  | Output =>
    have hdisp : AudioDevice.display ⟨name, DeviceType.Output⟩
        = (name ++ [' ']) ++ outputSuffix := by
      show name ++ (' ' :: outputSuffix) = _
      rw [List.append_cons]
    rw [hdisp]
    have hne1 : rustTrim ((name ++ [' ']) ++ outputSuffix) ≠ [] :=
      rustTrim_ne_nil_of_mem
        (List.mem_append.mpr (Or.inr (by decide : '(' ∈ outputSuffix)))
        (by decide)
    have hnotin := input_not_suffix_of_output_display name
    have hsuf : outputSuffix.isSuffixOf
        (lowerList ((name ++ [' ']) ++ outputSuffix)) = true := by
      apply List.isSuffixOf_iff_suffix.mpr
      rw [lowerList_display name outputSuffix (by decide)]
      exact List.suffix_append _ _
    rw [AudioDevice.fromName]
    rw [if_neg (fun hemp => hne1 (List.isEmpty_iff.mp hemp))]
    rw [if_neg (fun hin => by rw [hnotin] at hin; exact Bool.false_ne_true hin)]
    rw [if_pos hsuf]
    rw [trimEndMatches_display_suffix outputSuffix (by decide) (by decide) name]
    rw [rustTrim_append_space name h]

/-- Witness for the amended C3 at the device `"Mic 1"` (input). -/
theorem claim_C3_amended_witness :
    rustTrim "Mic 1".toList = "Mic 1".toList
    ∧ AudioDevice.fromName
        (AudioDevice.display ⟨"Mic 1".toList, DeviceType.Input⟩)
      = some ⟨"Mic 1".toList, DeviceType.Input⟩ :=
  ⟨by decide, claim_C3_amended ⟨"Mic 1".toList, DeviceType.Input⟩ (by decide)⟩

end Screenpipe
